import Mathlib

/-!
# Verification of the ElligenceAI document-to-chunk pipeline

Shallow embedding of the chunking pipeline of the repository
(`document_parser.py`, `pdf_parser.py`, `weaviateUploader.py`) and proofs
of the specification claims about it.

External effects (file I/O, COM automation, OpenAI and Google API calls,
uuid/timestamp generation) are modelled by explicit parameters: each call
site receives the outcome of the external call as an `Except`/`Option`
value or as a generator function, and the surrounding Python control flow
(`try`/`except`, truthiness tests, slicing) is translated faithfully.
-/

/-! ## Word splitting and joining

Python `str.split()` (no separator): split on runs of whitespace and drop
empty pieces.  Modelled over the character list of the string; whitespace
is `Char.isWhitespace`, which covers the ASCII whitespace characters that
occur in the pipeline's data. -/

/-- Helper for `pySplit`: walks the character list, accumulating the current
word in reverse in `cur`, flushing it at each whitespace character. -/
def splitWsAux : List Char → List Char → List String
  | [], [] => []
  | [], cur => [String.mk cur.reverse]
  | c :: rest, cur =>
    if c.isWhitespace then
      if cur.isEmpty then splitWsAux rest []
      else String.mk cur.reverse :: splitWsAux rest []
    else splitWsAux rest (c :: cur)

/-- Python `s.split()`: whitespace-run splitting with empty pieces dropped. -/
def pySplit (s : String) : List String := splitWsAux s.toList []

/-- `len(p.split())` — the number of whitespace-delimited words of `p`. -/
def wc (p : String) : Nat := (pySplit p).length

/-- Total word count of a list of paragraphs. -/
def wsumL (l : List String) : Nat := (l.map wc).sum

/-- Python `" ".join(l)`. -/
def pyJoin : List String → String
  | [] => ""
  | [s] => s
  | s :: rest => s ++ " " ++ pyJoin rest

/-! ## `document_parser.py` — `_create_chunk_with_overlap` (lines 120-166)

The paragraph-accumulation chunker.  A chunk record is the dict built at
lines 134-139 / 159-164; the nondeterministic `uuid.uuid4()` and
`datetime.now(UTC).isoformat()` calls are modelled by a generator `gen`
indexed by the number of chunks already emitted. -/

/-- The dict emitted by `_create_chunk_with_overlap`
(keys `content`, `page_number`, `uuid`, `created_at`). -/
structure DocChunk where
  content : String
  page_number : Nat
  uuid : String
  created_at : String
deriving DecidableEq, Repr

/-- The dict keys of a chunk emitted by `_create_chunk_with_overlap`,
exactly the keys of the literal at `document_parser.py` lines 134-139. -/
def DocChunk.keys (_ : DocChunk) : List String :=
  ["content", "page_number", "uuid", "created_at"]

/-- Loop state of `_create_chunk_with_overlap`: emitted `chunks`, paragraph
buffer `current_chunk`, running `current_word_count`. -/
structure ChunkState where
  chunks : List DocChunk
  buf : List String
  cnt : Nat
deriving Repr

/-- The overlap-seeding loop (`document_parser.py` lines 142-150): walk the
just-closed paragraphs in reverse (`ps` is the reversed buffer),
accumulating whole paragraphs into `acc` while the accumulated word count
stays within `ow`, and stop at the first paragraph that does not fit. -/
def overlapLoop (ow : Nat) : List String → List String → Nat → List String × Nat
  | [], acc, c => (acc, c)
  | p :: rest, acc, c =>
    if c + wc p ≤ ow then overlapLoop ow rest (p :: acc) (c + wc p)
    else (acc, c)

/-- One iteration of the `for paragraph in content` loop
(`document_parser.py` lines 128-155): the incoming paragraph's word count
is added to the running total, the closure test fires when the total
reaches `mw`, and only after the test is the paragraph appended to the
buffer. -/
def chunkStep (gen : Nat → String × String) (pn mw ow : Nat)
    (s : ChunkState) (p : String) : ChunkState :=
  let cnt := s.cnt + wc p
  if mw ≤ cnt then
    let g := gen s.chunks.length
    let ov := overlapLoop ow s.buf.reverse [] 0
    { chunks := s.chunks ++ [⟨pyJoin s.buf, pn, g.1, g.2⟩]
      buf := ov.1 ++ [p]
      cnt := ov.2 }
  else
    { chunks := s.chunks, buf := s.buf ++ [p], cnt := cnt }

/-- Flush of the final buffer (`document_parser.py` lines 157-164):
`if current_chunk:` emit one more chunk. -/
def chunkFinish (gen : Nat → String × String) (pn : Nat) (s : ChunkState) :
    List DocChunk :=
  if s.buf.isEmpty then s.chunks
  else s.chunks ++ [⟨pyJoin s.buf, pn, (gen s.chunks.length).1, (gen s.chunks.length).2⟩]

/-- `DocumentParser._create_chunk_with_overlap(content, page_number, _,
max_words_per_chunk=1000, overlap_words=200)`. -/
def createChunkWithOverlap (gen : Nat → String × String) (content : List String)
    (pn : Nat) (mw : Nat := 1000) (ow : Nat := 200) : List DocChunk :=
  chunkFinish gen pn (content.foldl (chunkStep gen pn mw ow) ⟨[], [], 0⟩)

/-- Fixed uuid/timestamp source used for concrete evaluations. -/
def gen0 : Nat → String × String :=
  fun _ => ("00000000-0000-0000-0000-000000000000", "2026-01-01T00:00:00+00:00")

/-! ## `pdf_parser.py` — page model, enrichment, overlapping chunks -/

/-- The `PageContent` dataclass (`pdf_parser.py` lines 14-20). -/
structure PageContent where
  page_number : Nat
  text : String
  image_path : Option String := none
  image_description : Option String := none
deriving DecidableEq, Repr

/-- `PDFParser.get_image_description` (`pdf_parser.py` lines 66-121).
The OpenAI call is modelled by its outcome `apiResult`; on success the
response content is stripped and returned, and any exception is caught,
logged, and replaced by the sentinel string
`"Error generating image description."` (line 121). -/
def getImageDescription (apiResult : Except String String) : String :=
  match apiResult with
  | .ok content => content.trim
  | .error _ => "Error generating image description."

/-- The enrichment applied at `pdf_parser.py` lines 193-195 and 217-219:
`if page.image_description:` (Python truthiness — `None` and `""` are
falsy) append the labeled description block to the page text. -/
def enrichedText (p : PageContent) : String :=
  match p.image_description with
  | none => p.text
  | some d =>
    if d = "" then p.text
    else p.text ++ "\n\n[Image Description for Page " ++ toString p.page_number ++ "]:\n" ++ d

/-- `overlap_size = int(len(words) * overlap_percentage)` (line 199) at the
default `overlap_percentage = 0.2`: `int(n * 0.2)` equals `n / 5` for every
list length `n` arising here (the float product `n * 0.2` is never below
the exact value `n / 5`, so truncation gives the integer quotient). -/
def overlapSize (n : Nat) : Nat := n / 5

/-- Python `words[-k:]` (line 227): for `k > 0` the last `k` elements (all
of them when `k ≥ len`), but for `k = 0` the slice `[-0:]` is `[0:]`, the
whole list. -/
def lastSlice (l : List String) (k : Nat) : List String :=
  if k = 0 then l else l.drop (l.length - k)

/-- `page_number` values stored in the pdf chunk dicts: an `int` for page
chunks, the f-string `"{i}-{i+1}"` for bridge chunks. -/
inductive PyPage where
  | pint : Nat → PyPage
  | pstr : String → PyPage
deriving DecidableEq, Repr

/-- The dict emitted by `create_overlapping_chunks` (keys `uuid`,
`page_number`, `text`, `start_word`, `end_word`, `image_path`). -/
structure PdfChunk where
  uuid : String
  page_number : PyPage
  text : String
  start_word : Nat
  end_word : Nat
  image_path : Option String
deriving DecidableEq, Repr

/-- The dict keys of a chunk emitted by `create_overlapping_chunks`,
exactly the keys of the literals at `pdf_parser.py` lines 202-209 and
224-231. -/
def PdfChunk.keys (_ : PdfChunk) : List String :=
  ["uuid", "page_number", "text", "start_word", "end_word", "image_path"]

/-- The per-page chunk built at `pdf_parser.py` lines 202-210. -/
def pageChunk (u : String) (p : PageContent) : PdfChunk :=
  let t := enrichedText p
  ⟨u, .pint p.page_number, t, 0, (pySplit t).length, p.image_path⟩

/-- The bridge chunk built at `pdf_parser.py` lines 213-232: `overlap_size`
is computed from the current page's (enriched) word list and used for both
the tail of the current page and the head of the next page. -/
def bridgeChunk (u : String) (p q : PageContent) : PdfChunk :=
  let ws := pySplit (enrichedText p)
  let nws := pySplit (enrichedText q)
  let k := overlapSize ws.length
  ⟨u, .pstr (toString p.page_number ++ "-" ++ toString q.page_number),
    pyJoin (lastSlice ws k ++ nws.take k),
    ws.length - k, k, none⟩

/-- The `for i in range(len(pages))` loop of `create_overlapping_chunks`
(`pdf_parser.py` lines 188-233): one chunk per page, and after every page
that has a successor, one bridge chunk.  `i` indexes the uuid generator in
chunk-creation order. -/
def createOverlappingChunksGo (gen : Nat → String) : Nat → List PageContent → List PdfChunk
  | _, [] => []
  | i, [p] => [pageChunk (gen i) p]
  | i, p :: q :: rest =>
    pageChunk (gen i) p :: bridgeChunk (gen (i + 1)) p q ::
      createOverlappingChunksGo gen (i + 2) (q :: rest)

/-- `PDFParser.create_overlapping_chunks(pages)` at the default
`overlap_percentage = 0.2`. -/
def createOverlappingChunks (gen : Nat → String) (pages : List PageContent) : List PdfChunk :=
  createOverlappingChunksGo gen 0 pages

/-- Fixed uuid source for concrete pdf-chunk evaluations. -/
def pgen0 : Nat → String := fun _ => "00000000-0000-0000-0000-000000000000"

/-! ## `pdf_parser.py` — `extract_text_from_pdf` / `process_pdf`,
`document_parser.py` — `parse_document` and helpers

`parse_document` dispatches on the file type and converts every exception
reaching it into an empty list (lines 53-68).  The external calls of each
branch are modelled by the fields of `ParseEnv`; a branch that may raise
is modelled as `Except String`. -/

/-- The page loop of `extract_text_from_pdf` (`pdf_parser.py` lines
165-175): pages are accumulated in order; an exception while extracting a
page aborts the loop, is caught, and the pages collected so far are
returned. -/
def collectPages : List (Except String PageContent) → List PageContent
  | [] => []
  | .ok p :: rest => p :: collectPages rest
  | .error _ :: _ => []

/-- `PDFParser.extract_text_from_pdf`: a failure to open the document
yields no pages; otherwise the per-page loop runs. -/
def extractTextFromPdf (o : Except String (List (Except String PageContent))) :
    List PageContent :=
  match o with
  | .error _ => []
  | .ok outcomes => collectPages outcomes

/-- `PDFParser.process_pdf` (`pdf_parser.py` lines 264-289), which may
itself raise: extraction yielding no pages returns `[]` before any chunk
is built; otherwise chunks are created and `save_chunks` writes them to
disk — a write failure (outcome `save`) propagates as an exception. -/
def processPdfE (pdfGen : Nat → String)
    (o : Except String (List (Except String PageContent)))
    (save : Except String Unit) : Except String (List PdfChunk) :=
  let pages := extractTextFromPdf o
  if pages.isEmpty then .ok []
  else
    match save with
    | .error e => .error e
    | .ok _ => .ok (createOverlappingChunks pdfGen pages)

/-- Fate of the temporary PDF file created by `_convert_pptx_to_pdf`. -/
inductive TempFileState where
  | notCreated
  | deleted
  | leaked
deriving DecidableEq, Repr

/-- Outcome of `_convert_pptx_to_pdf` (`document_parser.py` lines
70-100).  The temporary PDF is created by `presentation.SaveAs` at line
87, so an exception raised before that line (`CoInitialize`, `Dispatch`,
`Presentations.Open` — lines 74-84) propagates with no file on disk,
while an exception raised after it (`Close`, `Quit`, `CoUninitialize` —
lines 90-94) propagates with the temporary PDF already created. -/
inductive ConvOutcome where
  | ok
  | failBeforeSave (e : String)
  | failAfterSave (e : String)
deriving DecidableEq, Repr

/-- External-call outcomes consumed by `parse_document` and its helpers. -/
structure ParseEnv where
  /-- `docx.Document(...)` paragraph texts, or the exception it raises. -/
  docx : Except String (List String)
  /-- contents of the text file, or the exception raised reading it. -/
  txt : Except String String
  /-- outcome of `_convert_pptx_to_pdf`'s COM automation, distinguishing
  failures before and after `SaveAs` creates the temporary PDF. -/
  pptxConv : ConvOutcome
  /-- outcome of `fitz.open` plus the per-page extraction outcomes. -/
  pdfOpen : Except String (List (Except String PageContent))
  /-- outcome of `save_chunks`'s file writes. -/
  save : Except String Unit
  /-- uuid source for pdf chunks. -/
  pdfGen : Nat → String
  /-- whether `self.service` was initialized by `_setup_google_docs`. -/
  gdocService : Bool
  /-- paragraph texts of the resolved Google Doc, or the exception. -/
  gdocDoc : Except String (List String)
  /-- uuid/timestamp source for document chunks. -/
  gen : Nat → String × String

/-- `DocumentParser._convert_and_parse_pptx` (`document_parser.py` lines
102-118), also tracking the temporary PDF file: the `unlink` at line 112
runs only when conversion and parsing both succeed; if `process_pdf`
raises — or the conversion itself raises after `SaveAs` has created the
file — the `except` branch returns `[]` without removing the file. -/
def convertAndParsePptxT (env : ParseEnv) : List PdfChunk × TempFileState :=
  match env.pptxConv with
  | .failBeforeSave _ => ([], .notCreated)
  | .failAfterSave _ => ([], .leaked)
  | .ok =>
    match processPdfE env.pdfGen env.pdfOpen env.save with
    | .ok chunks => (chunks, .deleted)
    | .error _ => ([], .leaked)

/-- The chunk list returned by `_convert_and_parse_pptx`. -/
def convertAndParsePptx (env : ParseEnv) : List PdfChunk :=
  (convertAndParsePptxT env).1

/-- A chunk record returned by `parse_document`: the document branches
return `_create_chunk_with_overlap` dicts, the pptx branch returns
`create_overlapping_chunks` dicts. -/
inductive AnyChunk where
  | doc : DocChunk → AnyChunk
  | pdf : PdfChunk → AnyChunk
deriving DecidableEq, Repr

/-- Paragraph filtering shared by the docx and gdoc branches
(`document_parser.py` lines 171 and 198-204): keep the raw paragraph text
whenever its stripped form is non-empty. -/
def keepNonBlank (ps : List String) : List String :=
  ps.filter (fun p => p.trim ≠ "")

/-- Paragraph splitting of `_parse_txt` (`document_parser.py` line 181):
split on `"\n\n"`, strip each piece, keep the non-empty ones. -/
def txtParagraphs (content : String) : List String :=
  ((content.splitOn "\n\n").map String.trim).filter (fun p => p ≠ "")

/-- Python `file_type.lower()`: character-wise lowercasing. -/
def pyLower (s : String) : String := String.mk (s.data.map Char.toLower)

/-- The body of `parse_document`'s `try` block (`document_parser.py` lines
55-65): dispatch on the lowered file type; `.error` is an exception
propagating out of the branch.  The gdoc branch raises when the service is
uninitialized (line 188) but catches resolution failures internally and
returns `[]` (lines 208-210). -/
def parseDocumentBody (ft : String) (env : ParseEnv) : Except String (List AnyChunk) :=
  if pyLower ft = ".docx" then
    match env.docx with
    | .error e => .error e
    | .ok ps => .ok ((createChunkWithOverlap env.gen (keepNonBlank ps) 1).map .doc)
  else if pyLower ft = ".txt" then
    match env.txt with
    | .error e => .error e
    | .ok content => .ok ((createChunkWithOverlap env.gen (txtParagraphs content) 1).map .doc)
  else if pyLower ft = ".pptx" then
    .ok ((convertAndParsePptx env).map .pdf)
  else if pyLower ft = ".gdoc" then
    if env.gdocService = false then .error "Google Docs service not initialized"
    else
      match env.gdocDoc with
      | .error _ => .ok []
      | .ok ps => .ok ((createChunkWithOverlap env.gen (keepNonBlank ps) 1).map .doc)
  else .error ("Unsupported file type: " ++ ft)

/-- `DocumentParser.parse_document` (`document_parser.py` lines 53-68):
any exception raised by the dispatched branch is caught, logged, and
turned into `[]`. -/
def parseDocument (ft : String) (env : ParseEnv) : List AnyChunk :=
  match parseDocumentBody ft env with
  | .ok cs => cs
  | .error _ => []

/-! ## `weaviateUploader.py` — `upload_text_file` (lines 96-138)

The record inserted into the collection, with `metadata` at its default
`None` (the call sites pass no metadata): `content` plus the metadata
fields added at lines 117-125.  `word_count` is `len(content.split())`. -/

/-- A Python dict value occurring in the upload record. -/
inductive PyVal where
  | pstr : String → PyVal
  | pint : Nat → PyVal
deriving DecidableEq, Repr

/-- The record inserted by `upload_text_file`: `content`, then
`source_file`, `created_at`, `word_count`, `chunk_uuid`. -/
def uploadRecord (content fileName now u : String) : List (String × PyVal) :=
  [("content", .pstr content),
   ("source_file", .pstr fileName),
   ("created_at", .pstr now),
   ("word_count", .pint (pySplit content).length),
   ("chunk_uuid", .pstr u)]

/-! ## Lemmas about word splitting and joining -/

theorem splitWsAux_append_ws (ys : List Char) :
    ∀ (xs cur : List Char),
      splitWsAux (xs ++ ' ' :: ys) cur = splitWsAux xs cur ++ splitWsAux ys [] := by
  intro xs
  induction xs with
  | nil =>
    intro cur
    cases cur with
    | nil => simp [splitWsAux]
    | cons c cs => simp [splitWsAux, List.isEmpty]
  | cons c rest ih =>
    intro cur
    by_cases h : c.isWhitespace
    · by_cases hc : cur.isEmpty <;> simp [splitWsAux, h, hc, ih]
    · simp [splitWsAux, h, ih]

theorem pySplit_append_space (a b : String) :
    pySplit (a ++ " " ++ b) = pySplit a ++ pySplit b := by
  unfold pySplit
  have h : (a ++ " " ++ b).toList = a.toList ++ ' ' :: b.toList := by
    simp [String.toList]
  rw [h, splitWsAux_append_ws]

theorem pySplit_pyJoin : ∀ l : List String, pySplit (pyJoin l) = (l.map pySplit).flatten := by
  intro l
  induction l with
  | nil => rfl
  | cons s rest ih =>
    cases rest with
    | nil => simp [pyJoin]
    | cons t ts =>
      rw [show pyJoin (s :: t :: ts) = s ++ " " ++ pyJoin (t :: ts) from rfl,
        pySplit_append_space, ih]
      simp

theorem wc_pyJoin (l : List String) : wc (pyJoin l) = wsumL l := by
  simp only [wc, wsumL, pySplit_pyJoin, List.length_flatten, List.map_map]
  rfl

theorem mem_splitWsAux_ne_empty :
    ∀ (cs cur : List Char) (w : String), w ∈ splitWsAux cs cur → w ≠ "" := by
  intro cs
  induction cs with
  | nil =>
    intro cur w hw
    cases cur with
    | nil => simp [splitWsAux] at hw
    | cons c cs' =>
      simp [splitWsAux] at hw
      subst hw
      intro h
      have := congrArg String.data h
      simp at this
  | cons c rest ih =>
    intro cur w hw
    by_cases h : c.isWhitespace
    · by_cases hc : cur.isEmpty
      · simp [splitWsAux, h, hc] at hw
        exact ih [] w hw
      · simp [splitWsAux, h, hc] at hw
        rcases hw with hw | hw
        · subst hw
          intro hcon
          have := congrArg String.data hcon
          simp [List.isEmpty_iff] at this hc
          exact hc this
        · exact ih [] w hw
    · simp [splitWsAux, h] at hw
      exact ih (c :: cur) w hw

theorem mem_pySplit_ne_empty (s w : String) (h : w ∈ pySplit s) : w ≠ "" :=
  mem_splitWsAux_ne_empty s.toList [] w h

theorem pyJoin_ne_empty :
    ∀ l : List String, l ≠ [] → (∀ s ∈ l, s ≠ "") → pyJoin l ≠ "" := by
  intro l
  match l with
  | [] => intro h; exact absurd rfl h
  | [a] =>
    intro _ ha
    exact ha a (by simp)
  | a :: b :: rest =>
    intro _ ha hcon
    have hlen := congrArg String.length hcon
    rw [show pyJoin (a :: b :: rest) = a ++ " " ++ pyJoin (b :: rest) from rfl] at hlen
    simp [String.length_append] at hlen
    exact absurd hlen.1.2 (by decide)

/-! ## Lemmas about the overlap-seeding loop -/

theorem wsumL_nil : wsumL [] = 0 := rfl

theorem wsumL_cons (p : String) (l : List String) : wsumL (p :: l) = wc p + wsumL l := by
  simp [wsumL]

theorem wsumL_append (a b : List String) : wsumL (a ++ b) = wsumL a + wsumL b := by
  simp [wsumL]

theorem wsumL_reverse (l : List String) : wsumL l.reverse = wsumL l := by
  simp [wsumL, List.sum_reverse]

theorem wsumL_take_le (l : List String) {i k : Nat} (h : i ≤ k) :
    wsumL (l.take i) ≤ wsumL (l.take k) := by
  have h1 : l.take i = (l.take k).take i := by
    rw [List.take_take, Nat.min_eq_left h]
  rw [h1]
  generalize l.take k = t
  calc wsumL (t.take i) ≤ wsumL (t.take i) + wsumL (t.drop i) := Nat.le_add_right _ _
    _ = wsumL (t.take i ++ t.drop i) := (wsumL_append _ _).symm
    _ = wsumL t := by rw [List.take_append_drop]

theorem overlapLoop_spec (ow : Nat) :
    ∀ (ps acc : List String) (c : Nat),
      ∃ j, j ≤ ps.length ∧
        (overlapLoop ow ps acc c).1 = (ps.take j).reverse ++ acc ∧
        (overlapLoop ow ps acc c).2 = c + wsumL (ps.take j) ∧
        (j < ps.length → ow < c + wsumL (ps.take (j + 1))) ∧
        (0 < j → (overlapLoop ow ps acc c).2 ≤ ow) := by
  intro ps
  induction ps with
  | nil =>
    intro acc c
    exact ⟨0, by simp [overlapLoop, wsumL]⟩
  | cons p rest ih =>
    intro acc c
    by_cases h : c + wc p ≤ ow
    · obtain ⟨j, hj, h1, h2, h3, h4⟩ := ih (p :: acc) (c + wc p)
      have hstep : overlapLoop ow (p :: rest) acc c = overlapLoop ow rest (p :: acc) (c + wc p) := by
        simp [overlapLoop, h]
      refine ⟨j + 1, by simpa using hj, ?_, ?_, ?_, ?_⟩
      · rw [hstep, h1]
        simp
      · rw [hstep, h2]
        simp [wsumL_cons]
        omega
      · intro hlt
        simp at hlt
        have := h3 hlt
        simp [wsumL_cons]
        omega
      · intro _
        rw [hstep]
        rcases Nat.eq_zero_or_pos j with hj0 | hjp
        · subst hj0
          rw [h2]
          simpa using h
        · exact h4 hjp
    · refine ⟨0, Nat.zero_le _, by simp [overlapLoop, h], by simp [overlapLoop, h, wsumL], ?_, by omega⟩
      intro _
      simp [wsumL_cons, wsumL_nil]
      omega

/-- The seed computed by the reverse walk is the maximal suffix of the
closed buffer whose total word count stays within `ow`. -/
theorem overlapSeed_spec (ow : Nat) (buf : List String) :
    (overlapLoop ow buf.reverse [] 0).1 <:+ buf ∧
    wsumL (overlapLoop ow buf.reverse [] 0).1 ≤ ow ∧
    ∀ t, t <:+ buf → wsumL t ≤ ow → t.length ≤ (overlapLoop ow buf.reverse [] 0).1.length := by
  obtain ⟨j, hj, h1, h2, h3, h4⟩ := overlapLoop_spec ow buf.reverse [] 0
  rw [List.length_reverse] at hj
  have hseed : (overlapLoop ow buf.reverse [] 0).1 = buf.drop (buf.length - j) := by
    rw [h1, List.append_nil, List.take_reverse, List.reverse_reverse]
  have hlen : (overlapLoop ow buf.reverse [] 0).1.length = j := by
    rw [hseed, List.length_drop]
    omega
  have hsum : wsumL (overlapLoop ow buf.reverse [] 0).1 = wsumL (buf.reverse.take j) := by
    rw [h1, List.append_nil, wsumL_reverse]
  refine ⟨by rw [hseed]; exact List.drop_suffix _ _, ?_, ?_⟩
  · rcases Nat.eq_zero_or_pos j with hj0 | hjp
    · subst hj0
      rw [hsum]
      simp [wsumL]
    · have := h4 hjp
      rw [h2] at this
      rw [hsum]
      omega
  · intro t ht hts
    by_contra hcon
    rw [hlen] at hcon
    push_neg at hcon
    have htlen : t.length ≤ buf.length := ht.length_le
    have hjlt : j < buf.length := by omega
    have h3' := h3 (by rw [List.length_reverse]; omega)
    have htdrop : t = buf.drop (buf.length - t.length) := List.suffix_iff_eq_drop.mp ht
    have key : buf.drop (buf.length - t.length) = (buf.reverse.take t.length).reverse := by
      rw [List.take_reverse, List.reverse_reverse]
    have htsum : wsumL t = wsumL (buf.reverse.take t.length) := by
      conv_lhs => rw [htdrop, key]
      rw [wsumL_reverse]
    have hmono : wsumL (buf.reverse.take (j + 1)) ≤ wsumL (buf.reverse.take t.length) :=
      wsumL_take_le _ (by omega)
    omega

/-- Every paragraph of the seed comes from the closed buffer. -/
theorem overlapSeed_mem (ow : Nat) (buf : List String) (x : String)
    (hx : x ∈ (overlapLoop ow buf.reverse [] 0).1) : x ∈ buf := by
  obtain ⟨hsfx, _, _⟩ := overlapSeed_spec ow buf
  exact hsfx.subset hx

/-! ## Lemmas about the chunker fold -/

theorem chunkStep_chunks_mono (gen : Nat → String × String) (pn mw ow : Nat)
    (s : ChunkState) (p : String) :
    ∃ tl, (chunkStep gen pn mw ow s p).chunks = s.chunks ++ tl := by
  unfold chunkStep
  by_cases h : mw ≤ s.cnt + wc p <;> simp [h]

theorem foldl_chunks_mono (gen : Nat → String × String) (pn mw ow : Nat) :
    ∀ (l : List String) (s : ChunkState),
      ∃ tl, (l.foldl (chunkStep gen pn mw ow) s).chunks = s.chunks ++ tl := by
  intro l
  induction l with
  | nil => intro s; exact ⟨[], by simp⟩
  | cons p rest ih =>
    intro s
    obtain ⟨t1, h1⟩ := chunkStep_chunks_mono gen pn mw ow s p
    obtain ⟨t2, h2⟩ := ih (chunkStep gen pn mw ow s p)
    exact ⟨t1 ++ t2, by rw [List.foldl_cons, h2, h1, List.append_assoc]⟩

theorem chunkFinish_chunks_mono (gen : Nat → String × String) (pn : Nat) (s : ChunkState) :
    ∃ tl, chunkFinish gen pn s = s.chunks ++ tl := by
  unfold chunkFinish
  by_cases h : s.buf.isEmpty <;> simp [h]

theorem foldFinish_chunks_mono (gen : Nat → String × String) (pn mw ow : Nat)
    (l : List String) (s : ChunkState) :
    ∃ tl, chunkFinish gen pn (l.foldl (chunkStep gen pn mw ow) s) = s.chunks ++ tl := by
  obtain ⟨t1, h1⟩ := foldl_chunks_mono gen pn mw ow l s
  obtain ⟨t2, h2⟩ := chunkFinish_chunks_mono gen pn (l.foldl (chunkStep gen pn mw ow) s)
  exact ⟨t1 ++ t2, by rw [h2, h1, List.append_assoc]⟩

/-- Whenever the loop state has a non-empty buffer, the remaining fold
emits at least one more chunk, and the first chunk emitted after the
current state extends the current buffer: its content is the join of the
buffer followed by some later paragraphs. -/
theorem foldFinish_next_chunk (gen : Nat → String × String) (pn mw ow : Nat) :
    ∀ (l : List String) (s : ChunkState), s.buf ≠ [] →
      ∃ c ext,
        (chunkFinish gen pn (l.foldl (chunkStep gen pn mw ow) s))[s.chunks.length]? = some c ∧
        c.content = pyJoin (s.buf ++ ext) := by
  intro l
  induction l with
  | nil =>
    intro s hbuf
    have hne : s.buf.isEmpty = false := by simpa [List.isEmpty_iff] using hbuf
    refine ⟨⟨pyJoin s.buf, pn, (gen s.chunks.length).1, (gen s.chunks.length).2⟩, [], ?_, by simp⟩
    simp only [List.foldl_nil, chunkFinish, hne, Bool.false_eq_true, if_false]
    rw [List.getElem?_append_right (le_refl _)]
    simp
  | cons p rest ih =>
    intro s hbuf
    by_cases h : mw ≤ s.cnt + wc p
    · have hchunks : (chunkStep gen pn mw ow s p).chunks =
          s.chunks ++ [⟨pyJoin s.buf, pn, (gen s.chunks.length).1, (gen s.chunks.length).2⟩] := by
        simp [chunkStep, h]
      obtain ⟨tl, htl⟩ := foldFinish_chunks_mono gen pn mw ow rest (chunkStep gen pn mw ow s p)
      refine ⟨⟨pyJoin s.buf, pn, (gen s.chunks.length).1, (gen s.chunks.length).2⟩, [], ?_, by simp⟩
      rw [List.foldl_cons, htl, hchunks, List.append_assoc]
      rw [List.getElem?_append_right (le_refl _)]
      simp
    · have hs' : chunkStep gen pn mw ow s p = ⟨s.chunks, s.buf ++ [p], s.cnt + wc p⟩ := by
        simp [chunkStep, h]
      obtain ⟨c, ext, hc, hcontent⟩ := ih ⟨s.chunks, s.buf ++ [p], s.cnt + wc p⟩ (by simp)
      refine ⟨c, p :: ext, ?_, ?_⟩
      · rw [List.foldl_cons, hs']
        exact hc
      · rw [hcontent, List.append_assoc]
        rfl

/-- If every paragraph in the buffer and in the remaining input is
non-empty, the buffer is non-empty, and all chunks emitted so far have
non-empty content, then every chunk of the final result has non-empty
content. -/
theorem foldFinish_contents_ne_empty (gen : Nat → String × String) (pn mw ow : Nat) :
    ∀ (l : List String) (s : ChunkState),
      (∀ c ∈ s.chunks, c.content ≠ "") → s.buf ≠ [] → (∀ q ∈ s.buf, q ≠ "") →
      (∀ q ∈ l, q ≠ "") →
      ∀ c ∈ chunkFinish gen pn (l.foldl (chunkStep gen pn mw ow) s), c.content ≠ "" := by
  intro l
  induction l with
  | nil =>
    intro s hs hbuf hbufel _ c hc
    have hne : s.buf.isEmpty = false := by simpa [List.isEmpty_iff] using hbuf
    simp only [List.foldl_nil, chunkFinish, hne, Bool.false_eq_true, if_false,
      List.mem_append, List.mem_singleton] at hc
    rcases hc with hc | hc
    · exact hs c hc
    · subst hc
      exact pyJoin_ne_empty s.buf hbuf hbufel
  | cons p rest ih =>
    intro s hs hbuf hbufel hl c hc
    rw [List.foldl_cons] at hc
    by_cases h : mw ≤ s.cnt + wc p
    · have hstep : chunkStep gen pn mw ow s p =
          ⟨s.chunks ++ [⟨pyJoin s.buf, pn, (gen s.chunks.length).1, (gen s.chunks.length).2⟩],
            (overlapLoop ow s.buf.reverse [] 0).1 ++ [p], (overlapLoop ow s.buf.reverse [] 0).2⟩ := by
        simp [chunkStep, h]
      rw [hstep] at hc
      refine ih _ ?_ (by simp) ?_ (fun q hq => hl q (List.mem_cons_of_mem p hq)) c hc
      · intro d hd
        simp only [List.mem_append, List.mem_singleton] at hd
        rcases hd with hd | hd
        · exact hs d hd
        · subst hd
          exact pyJoin_ne_empty s.buf hbuf hbufel
      · intro q hq
        simp only [List.mem_append, List.mem_singleton] at hq
        rcases hq with hq | hq
        · exact hbufel q (overlapSeed_mem ow s.buf q hq)
        · subst hq
          exact hl q (List.mem_cons_self q rest)
    · have hstep : chunkStep gen pn mw ow s p = ⟨s.chunks, s.buf ++ [p], s.cnt + wc p⟩ := by
        simp [chunkStep, h]
      rw [hstep] at hc
      refine ih ⟨s.chunks, s.buf ++ [p], s.cnt + wc p⟩ hs (by simp) ?_
        (fun q hq => hl q (List.mem_cons_of_mem p hq)) c hc
      intro q hq
      simp only [List.mem_append, List.mem_singleton] at hq
      rcases hq with hq | hq
      · exact hbufel q hq
      · subst hq
        exact hl q (List.mem_cons_self q rest)

/-! ## Lemmas about the pdf chunk loop -/

theorem createOverlappingChunksGo_length (gen : Nat → String) :
    ∀ (pages : List PageContent) (i : Nat), pages ≠ [] →
      (createOverlappingChunksGo gen i pages).length = 2 * pages.length - 1 := by
  intro pages
  induction pages with
  | nil => intro i h; exact absurd rfl h
  | cons p rest ih =>
    intro i _
    cases rest with
    | nil => simp [createOverlappingChunksGo]
    | cons q rs =>
      have h2 := ih (i + 2) (by simp)
      simp only [createOverlappingChunksGo, List.length_cons] at h2 ⊢
      omega

theorem createOverlappingChunksGo_get (gen : Nat → String) :
    ∀ (pre : List PageContent) (p q : PageContent) (rest : List PageContent) (i : Nat),
      ∃ u v,
        (createOverlappingChunksGo gen i (pre ++ p :: q :: rest))[2 * pre.length]? =
          some (pageChunk u p) ∧
        (createOverlappingChunksGo gen i (pre ++ p :: q :: rest))[2 * pre.length + 1]? =
          some (bridgeChunk v p q) := by
  intro pre
  induction pre with
  | nil =>
    intro p q rest i
    exact ⟨gen i, gen (i + 1), by simp [createOverlappingChunksGo], by
      simp [createOverlappingChunksGo]⟩
  | cons a pre' ih =>
    intro p q rest i
    obtain ⟨b, Y, hbY⟩ : ∃ b Y, pre' ++ p :: q :: rest = b :: Y := by
      cases pre' with
      | nil => exact ⟨p, q :: rest, rfl⟩
      | cons c pre'' => exact ⟨c, pre'' ++ p :: q :: rest, rfl⟩
    obtain ⟨u, v, hu, hv⟩ := ih p q rest (i + 2)
    rw [hbY] at hu hv
    have hunfold : createOverlappingChunksGo gen i ((a :: pre') ++ p :: q :: rest) =
        pageChunk (gen i) a :: bridgeChunk (gen (i + 1)) a b ::
          createOverlappingChunksGo gen (i + 2) (b :: Y) := by
      rw [List.cons_append, hbY]
      simp [createOverlappingChunksGo]
    have e1 : 2 * (a :: pre').length = 2 * pre'.length + 1 + 1 := by
      simp [List.length_cons]; ring
    have e2 : 2 * (a :: pre').length + 1 = 2 * pre'.length + 1 + 1 + 1 := by
      simp [List.length_cons]; ring
    refine ⟨u, v, ?_, ?_⟩
    · rw [hunfold, e1, List.getElem?_cons_succ, List.getElem?_cons_succ]
      exact hu
    · rw [hunfold, e2, List.getElem?_cons_succ, List.getElem?_cons_succ]
      exact hv

/-! ## Contiguous-run analysis of the chunker (for the no-skip invariant)

Every chunk emitted by `_create_chunk_with_overlap` is the join of a
contiguous slice of the input paragraph list, and consecutive chunks'
slices are ordered and gap-free. -/

/-- The half-open slice `full[a:b]` of the paragraph list. -/
def pslice (full : List String) (a b : Nat) : List String :=
  (full.drop a).take (b - a)

/-- A chunk's content is the join of the paragraphs of its run. -/
def RunP (full : List String) (c : DocChunk) (r : Nat × Nat) : Prop :=
  r.1 ≤ r.2 ∧ r.2 ≤ full.length ∧ c.content = pyJoin (pslice full r.1 r.2)

/-- Ordering of consecutive runs: the next run starts at or before the
position just after the previous run ends (no paragraph in between is
skipped), and both endpoints are monotone (source order). -/
def RunChain (a b : Nat × Nat) : Prop :=
  b.1 ≤ a.2 ∧ a.1 ≤ b.1 ∧ a.2 ≤ b.2

theorem pslice_self (full : List String) (a : Nat) : pslice full a a = [] := by
  simp [pslice]

theorem pslice_length (full : List String) {a b : Nat} (hab : a ≤ b) (hb : b ≤ full.length) :
    (pslice full a b).length = b - a := by
  simp [pslice]
  omega

theorem pslice_extend (full : List String) {a b : Nat} (p : String) (r : List String)
    (hdrop : full.drop b = p :: r) (hab : a ≤ b) :
    pslice full a b ++ [p] = pslice full a (b + 1) := by
  have hb : full[b]? = some p := by
    have h0 := List.getElem?_drop full b 0
    rw [hdrop] at h0
    simpa using h0.symm
  have he : b + 1 - a = (b - a) + 1 := by omega
  rw [pslice, pslice, he, List.take_succ]
  congr 1
  rw [List.getElem?_drop, show a + (b - a) = b from by omega, hb]
  rfl

theorem pslice_drop (full : List String) (a b d : Nat) :
    (pslice full a b).drop d = pslice full (a + d) b := by
  rw [pslice, pslice, List.drop_take, List.drop_drop]
  congr 1
  omega

theorem forall₂_concat {α β : Type} {R : α → β → Prop} {l₁ : List α} {l₂ : List β}
    {a : α} {b : β} (h : List.Forall₂ R l₁ l₂) (hab : R a b) :
       List.Forall₂ R (l₁ ++ [a]) (l₂ ++ [b]) := by
  induction h with
  | nil => exact List.Forall₂.cons hab List.Forall₂.nil
  | cons hxy _ ih => exact List.Forall₂.cons hxy ih

/-- Fold invariant: if the buffer is the slice `full[bs:pos]`, the emitted
chunks carry a chained run assignment, and the last run is linked to the
buffer start, then the completed fold still carries a chained run
assignment. -/
theorem chunker_runs_aux (gen : Nat → String × String) (pn mw ow : Nat) (full : List String) :
    ∀ (rest : List String) (s : ChunkState) (bs pos : Nat) (runs : List (Nat × Nat)),
      full.drop pos = rest → bs ≤ pos → pos ≤ full.length →
      s.buf = pslice full bs pos →
      List.Forall₂ (RunP full) s.chunks runs →
      List.Chain' RunChain runs →
      (∀ la, runs.getLast? = some la → la.1 ≤ bs ∧ bs ≤ la.2 ∧ la.2 ≤ pos) →
      ∃ runs',
        List.Forall₂ (RunP full)
          (chunkFinish gen pn (rest.foldl (chunkStep gen pn mw ow) s)) runs' ∧
        List.Chain' RunChain runs' := by
  intro rest
  induction rest with
  | nil =>
    intro s bs pos runs hdrop hbspos hposlen hbuf hf2 hchain hlast
    by_cases hb : s.buf.isEmpty
    · exact ⟨runs, by simpa [chunkFinish, hb] using hf2, hchain⟩
    · refine ⟨runs ++ [(bs, pos)], ?_, ?_⟩
      · simp only [List.foldl_nil, chunkFinish, hb, Bool.false_eq_true, if_false]
        exact forall₂_concat hf2 ⟨hbspos, hposlen, by rw [hbuf]⟩
      · refine hchain.append (List.chain'_singleton _) ?_
        intro x hx y hy
        simp only [List.head?_cons, Option.mem_def, Option.some.injEq] at hy
        subst hy
        obtain ⟨h1, h2, h3⟩ := hlast x (Option.mem_def.mp hx)
        exact ⟨h2, h1, h3⟩
  | cons p rest' ih =>
    intro s bs pos runs hdrop hbspos hposlen hbuf hf2 hchain hlast
    have hposlt : pos < full.length := by
      have hlen := congrArg List.length hdrop
      simp only [List.length_drop, List.length_cons] at hlen
      omega
    have hdrop' : full.drop (pos + 1) = rest' := by
      have h1 := congrArg (List.drop 1) hdrop
      rw [List.drop_drop] at h1
      simpa using h1
    have hext : s.buf ++ [p] = pslice full bs (pos + 1) := by
      rw [hbuf]
      exact pslice_extend full p rest' hdrop hbspos
    rw [List.foldl_cons]
    by_cases h : mw ≤ s.cnt + wc p
    · set seed := (overlapLoop ow s.buf.reverse [] 0).1 with hseeddef
      have hstep : chunkStep gen pn mw ow s p =
          ⟨s.chunks ++ [⟨pyJoin s.buf, pn, (gen s.chunks.length).1, (gen s.chunks.length).2⟩],
            seed ++ [p], (overlapLoop ow s.buf.reverse [] 0).2⟩ := by
        simp [chunkStep, h]
      have hsfx : seed <:+ s.buf := (overlapSeed_spec ow s.buf).1
      have hseedeq : seed = s.buf.drop (s.buf.length - seed.length) :=
        List.suffix_iff_eq_drop.mp hsfx
      have hbuflen : s.buf.length = pos - bs := by
        rw [hbuf, pslice_length full hbspos hposlen]
      set d := s.buf.length - seed.length with hddef
      have hdle : d ≤ pos - bs := by omega
      have hseedslice : seed = pslice full (bs + d) pos := by
        conv_lhs => rw [hseedeq]
        conv_lhs => rw [hbuf]
        rw [pslice_drop]
      have hnewbuf : seed ++ [p] = pslice full (bs + d) (pos + 1) := by
        rw [hseedslice]
        exact pslice_extend full p rest' hdrop (by omega)
      refine ih (chunkStep gen pn mw ow s p) (bs + d) (pos + 1)
        (runs ++ [(bs, pos)]) hdrop' (by omega) (by omega) ?_ ?_ ?_ ?_
      · rw [hstep]
        exact hnewbuf
      · rw [hstep]
        exact forall₂_concat hf2 ⟨hbspos, le_of_lt hposlt, by rw [hbuf]⟩
      · refine hchain.append (List.chain'_singleton _) ?_
        intro x hx y hy
        simp only [List.head?_cons, Option.mem_def, Option.some.injEq] at hy
        subst hy
        obtain ⟨h1, h2, h3⟩ := hlast x (Option.mem_def.mp hx)
        exact ⟨h2, h1, h3⟩
      · intro la hla
        rw [List.getLast?_concat] at hla
        cases hla
        refine ⟨by omega, by omega, by omega⟩
    · have hstep : chunkStep gen pn mw ow s p = ⟨s.chunks, s.buf ++ [p], s.cnt + wc p⟩ := by
        simp [chunkStep, h]
      refine ih (chunkStep gen pn mw ow s p) bs (pos + 1) runs hdrop' (by omega) (by omega)
        ?_ ?_ hchain ?_
      · rw [hstep]
        exact hext
      · rw [hstep]
        exact hf2
      · intro la hla
        obtain ⟨h1, h2, h3⟩ := hlast la hla
        exact ⟨h1, h2, by omega⟩

/-! ## Non-emptiness of pdf chunk texts -/

theorem pySplit_empty : pySplit "" = [] := rfl

theorem ne_empty_of_pySplit_ne_nil {t : String} (h : pySplit t ≠ []) : t ≠ "" := by
  intro hc
  subst hc
  exact h pySplit_empty

/-- A page chunk's text is the page's enriched text. -/
theorem pageChunk_text (u : String) (p : PageContent) :
    (pageChunk u p).text = enrichedText p := rfl

theorem pageChunk_text_ne_empty (u : String) (p : PageContent)
    (hp : pySplit (enrichedText p) ≠ []) : (pageChunk u p).text ≠ "" :=
  ne_empty_of_pySplit_ne_nil hp

theorem bridgeChunk_text_ne_empty (u : String) (p q : PageContent)
    (hp : pySplit (enrichedText p) ≠ []) : (bridgeChunk u p q).text ≠ "" := by
  have hmem : ∀ s ∈ lastSlice (pySplit (enrichedText p))
      (overlapSize (pySplit (enrichedText p)).length) ++
      (pySplit (enrichedText q)).take (overlapSize (pySplit (enrichedText p)).length), s ≠ "" := by
    intro s hs
    rcases List.mem_append.mp hs with hs | hs
    · refine mem_pySplit_ne_empty (enrichedText p) s ?_
      unfold lastSlice at hs
      by_cases hk : overlapSize (pySplit (enrichedText p)).length = 0
      · simpa [hk] using hs
      · simp only [hk, if_false] at hs
        exact List.mem_of_mem_drop hs
    · exact mem_pySplit_ne_empty (enrichedText q) s (List.mem_of_mem_take hs)
  have hne : lastSlice (pySplit (enrichedText p))
      (overlapSize (pySplit (enrichedText p)).length) ++
      (pySplit (enrichedText q)).take (overlapSize (pySplit (enrichedText p)).length) ≠ [] := by
    intro hc
    rcases List.append_eq_nil.mp hc with ⟨h1, _⟩
    unfold lastSlice at h1
    by_cases hk : overlapSize (pySplit (enrichedText p)).length = 0
    · rw [if_pos hk] at h1
      exact hp h1
    · rw [if_neg hk] at h1
      have hlen := congrArg List.length h1
      have hk5 : overlapSize (pySplit (enrichedText p)).length ≤
          (pySplit (enrichedText p)).length := Nat.div_le_self _ 5
      simp only [List.length_drop, List.length_nil] at hlen
      omega
  exact pyJoin_ne_empty _ hne hmem

theorem createOverlappingChunksGo_text_ne_empty (gen : Nat → String) :
    ∀ (pages : List PageContent) (i : Nat),
      (∀ p ∈ pages, pySplit (enrichedText p) ≠ []) →
      ∀ c ∈ createOverlappingChunksGo gen i pages, c.text ≠ "" := by
  intro pages
  induction pages with
  | nil =>
    intro i _ c hc
    simp [createOverlappingChunksGo] at hc
  | cons p rest ih =>
    intro i hp c hc
    cases rest with
    | nil =>
      simp only [createOverlappingChunksGo, List.mem_singleton] at hc
      subst hc
      exact pageChunk_text_ne_empty _ p (hp p (List.mem_singleton_self p))
    | cons q rs =>
      simp only [createOverlappingChunksGo, List.mem_cons] at hc
      rcases hc with hc | hc | hc
      · subst hc
        exact pageChunk_text_ne_empty _ p (hp p (List.mem_cons_self p _))
      · subst hc
        exact bridgeChunk_text_ne_empty _ p q (hp p (List.mem_cons_self p _))
      · exact ih (i + 2) (fun r hr => hp r (List.mem_cons_of_mem p hr)) c hc

/-! ## Claim C1 — bridge chunks between adjacent pages -/

/-- First page of the C1 counterexample: 5 words, so
`overlap_size = int(5 * 0.2) = 1`. -/
def c1Page1 : PageContent := ⟨1, "a b c d e", none, none⟩

/-- Second page of the C1 counterexample: 10 words, so the claim's
per-page overlap count would be `int(10 * 0.2) = 2`. -/
def c1Page2 : PageContent := ⟨2, "f g h i j k l m n o", none, none⟩

/-- C1 is false as stated: the code computes `overlap_size` from page `i`
only and uses it for both sides of the bridge, so with pages of 5 and 10
words the bridge text is `"e f"` (1 word from each side), not the claim's
`"e f g"` (1 word from page 1 plus `int(10 * 0.2) = 2` words from page 2). -/
theorem c1_counterexample :
    ((createOverlappingChunks pgen0 [c1Page1, c1Page2])[1]?).map PdfChunk.text = some "e f" ∧
    pyJoin (lastSlice (pySplit (enrichedText c1Page1))
        (overlapSize (pySplit (enrichedText c1Page1)).length) ++
      (pySplit (enrichedText c1Page2)).take
        (overlapSize (pySplit (enrichedText c1Page2)).length)) = "e f g" ∧
    some ("e f" : String) ≠ some ("e f g" : String) := by
  refine ⟨by decide, by decide, by decide⟩

/-- C1 (amended): for every page list and every adjacent pair of pages `p`
and `q` (at positions `i`, `i+1`), the output interleaves exactly one
bridge chunk after each page chunk (`2m - 1` chunks in total); the bridge
at index `2i + 1` carries `page_number` `"{p}-{q}"` (from the pages'
recorded page numbers), no image path, and its text joins the last `k`
words of page `i`'s enriched text with the first `k` words of page
`i+1`'s enriched text, where `k = int(0.2 · len(words_i))` is computed
from page `i` alone; when `k = 0` the Python slice `words[-0:]` selects
all of page `i`'s words and no words of page `i+1`. -/
theorem c1_bridge_chunk_amended (gen : Nat → String) (pre rest : List PageContent)
    (p q : PageContent) :
    (createOverlappingChunks gen (pre ++ p :: q :: rest)).length =
      2 * (pre ++ p :: q :: rest).length - 1 ∧
    ((createOverlappingChunks gen (pre ++ p :: q :: rest))[2 * pre.length]?).map
      PdfChunk.page_number = some (PyPage.pint p.page_number) ∧
    ∃ c, (createOverlappingChunks gen (pre ++ p :: q :: rest))[2 * pre.length + 1]? = some c ∧
      c.page_number = PyPage.pstr (toString p.page_number ++ "-" ++ toString q.page_number) ∧
      c.image_path = none ∧
      c.start_word = (pySplit (enrichedText p)).length -
        overlapSize (pySplit (enrichedText p)).length ∧
      c.end_word = overlapSize (pySplit (enrichedText p)).length ∧
      (0 < overlapSize (pySplit (enrichedText p)).length →
        c.text = pyJoin ((pySplit (enrichedText p)).drop
            ((pySplit (enrichedText p)).length - overlapSize (pySplit (enrichedText p)).length) ++
          (pySplit (enrichedText q)).take (overlapSize (pySplit (enrichedText p)).length))) ∧
      (overlapSize (pySplit (enrichedText p)).length = 0 →
        c.text = pyJoin (pySplit (enrichedText p))) := by
  obtain ⟨u, v, hu, hv⟩ := createOverlappingChunksGo_get gen pre p q rest 0
  refine ⟨createOverlappingChunksGo_length gen (pre ++ p :: q :: rest) 0 (by simp),
    ?_, bridgeChunk v p q, hv, rfl, rfl, rfl, rfl, ?_, ?_⟩
  · rw [createOverlappingChunks, hu]
    rfl
  · intro hk
    have hk' : overlapSize (pySplit (enrichedText p)).length ≠ 0 := Nat.pos_iff_ne_zero.mp hk
    simp [bridgeChunk, lastSlice, hk']
  · intro hk
    simp [bridgeChunk, lastSlice, hk]

/-- Witness for the amended C1 at a concrete two-page input. -/
theorem c1_bridge_chunk_amended_witness :
    (createOverlappingChunks pgen0 ([] ++ c1Page1 :: c1Page2 :: [])).length =
      2 * (([] : List PageContent) ++ c1Page1 :: c1Page2 :: []).length - 1 ∧
    ((createOverlappingChunks pgen0 ([] ++ c1Page1 :: c1Page2 :: []))[2 * ([] : List PageContent).length]?).map
      PdfChunk.page_number = some (PyPage.pint c1Page1.page_number) ∧
    ∃ c, (createOverlappingChunks pgen0 ([] ++ c1Page1 :: c1Page2 :: []))[2 * ([] : List PageContent).length + 1]? = some c ∧
      c.page_number = PyPage.pstr (toString c1Page1.page_number ++ "-" ++ toString c1Page2.page_number) ∧
      c.image_path = none ∧
      c.start_word = (pySplit (enrichedText c1Page1)).length -
        overlapSize (pySplit (enrichedText c1Page1)).length ∧
      c.end_word = overlapSize (pySplit (enrichedText c1Page1)).length ∧
      (0 < overlapSize (pySplit (enrichedText c1Page1)).length →
        c.text = pyJoin ((pySplit (enrichedText c1Page1)).drop
            ((pySplit (enrichedText c1Page1)).length - overlapSize (pySplit (enrichedText c1Page1)).length) ++
          (pySplit (enrichedText c1Page2)).take (overlapSize (pySplit (enrichedText c1Page1)).length))) ∧
      (overlapSize (pySplit (enrichedText c1Page1)).length = 0 →
        c.text = pyJoin (pySplit (enrichedText c1Page1))) :=
  c1_bridge_chunk_amended pgen0 [] [] c1Page1 c1Page2

/-! ## Claim C2 — accumulation order in the paragraph chunker -/

/-- C2 is false as stated: with `max_words_per_chunk = 3` (and the
default `overlap_words = 200`), two 2-word paragraphs produce a first
(closed, non-final) chunk equal to the first paragraph only — the
triggering second paragraph `"b1 b2"` is appended to the buffer only
after the closure test — so the closed chunk has 2 words, fewer than the
window, and does not contain the trigger. -/
theorem c2_counterexample :
    (createChunkWithOverlap gen0 ["a1 a2", "b1 b2"] 1 3 200).map DocChunk.content =
      ["a1 a2", "a1 a2 b1 b2"] ∧
    wc "a1 a2" = 2 ∧ ¬ (3 ≤ 2) := by
  refine ⟨by decide, by decide, by decide⟩

/-- C2 (amended): the incoming paragraph's word count is added to the
running total before the closure test, and a chunk is closed exactly when
the updated total reaches or exceeds `max_words_per_chunk`; but the
paragraph itself is appended to the buffer only after the test, so the
closed chunk's content is the join of the buffer without the triggering
paragraph (its word count is the buffer's word count, which may be below
the window), the triggering paragraph instead ends the next buffer after
the overlap seed, and the running total restarts from the seed's word
count without counting the trigger. -/
theorem c2_step_semantics_amended (gen : Nat → String × String) (pn mw ow : Nat)
    (s : ChunkState) (p : String) :
    ((chunkStep gen pn mw ow s p).chunks.length = s.chunks.length + 1 ↔ mw ≤ s.cnt + wc p) ∧
    (mw ≤ s.cnt + wc p →
      ∃ c, (chunkStep gen pn mw ow s p).chunks = s.chunks ++ [c] ∧
        c.content = pyJoin s.buf ∧ wc c.content = wsumL s.buf ∧
        (chunkStep gen pn mw ow s p).buf = (overlapLoop ow s.buf.reverse [] 0).1 ++ [p] ∧
        (chunkStep gen pn mw ow s p).cnt = (overlapLoop ow s.buf.reverse [] 0).2) ∧
    (¬ mw ≤ s.cnt + wc p →
      (chunkStep gen pn mw ow s p).chunks = s.chunks ∧
      (chunkStep gen pn mw ow s p).buf = s.buf ++ [p] ∧
      (chunkStep gen pn mw ow s p).cnt = s.cnt + wc p) := by
  by_cases h : mw ≤ s.cnt + wc p
  · refine ⟨⟨fun _ => h, fun _ => by simp [chunkStep, h]⟩, fun _ => ?_, fun hn => absurd h hn⟩
    exact ⟨⟨pyJoin s.buf, pn, (gen s.chunks.length).1, (gen s.chunks.length).2⟩,
      by simp [chunkStep, h], rfl, wc_pyJoin s.buf, by simp [chunkStep, h], by simp [chunkStep, h]⟩
  · refine ⟨⟨fun hlen => ?_, fun hc => absurd hc h⟩, fun hc => absurd hc h,
      fun _ => ⟨by simp [chunkStep, h], by simp [chunkStep, h], by simp [chunkStep, h]⟩⟩
    exfalso
    simp [chunkStep, h] at hlen

/-- Witness for the amended C2 at a concrete closing step. -/
theorem c2_step_semantics_amended_witness :
    ((chunkStep gen0 1 3 0 ⟨[], ["a b"], 2⟩ "c d").chunks.length =
        (ChunkState.mk [] ["a b"] 2).chunks.length + 1 ↔
      3 ≤ (ChunkState.mk [] ["a b"] 2).cnt + wc "c d") ∧
    (3 ≤ (ChunkState.mk [] ["a b"] 2).cnt + wc "c d" →
      ∃ c, (chunkStep gen0 1 3 0 ⟨[], ["a b"], 2⟩ "c d").chunks =
          (ChunkState.mk [] ["a b"] 2).chunks ++ [c] ∧
        c.content = pyJoin (ChunkState.mk [] ["a b"] 2).buf ∧
        wc c.content = wsumL (ChunkState.mk [] ["a b"] 2).buf ∧
        (chunkStep gen0 1 3 0 ⟨[], ["a b"], 2⟩ "c d").buf =
          (overlapLoop 0 (ChunkState.mk [] ["a b"] 2).buf.reverse [] 0).1 ++ ["c d"] ∧
        (chunkStep gen0 1 3 0 ⟨[], ["a b"], 2⟩ "c d").cnt =
          (overlapLoop 0 (ChunkState.mk [] ["a b"] 2).buf.reverse [] 0).2) ∧
    (¬ 3 ≤ (ChunkState.mk [] ["a b"] 2).cnt + wc "c d" →
      (chunkStep gen0 1 3 0 ⟨[], ["a b"], 2⟩ "c d").chunks = (ChunkState.mk [] ["a b"] 2).chunks ∧
      (chunkStep gen0 1 3 0 ⟨[], ["a b"], 2⟩ "c d").buf = (ChunkState.mk [] ["a b"] 2).buf ++ ["c d"] ∧
      (chunkStep gen0 1 3 0 ⟨[], ["a b"], 2⟩ "c d").cnt =
        (ChunkState.mk [] ["a b"] 2).cnt + wc "c d") :=
  c2_step_semantics_amended gen0 1 3 0 ⟨[], ["a b"], 2⟩ "c d"

/-! ## Claim C3 — behaviour on image-description failure -/

/-- A page whose description generation failed: the sentinel returned by
the catch branch of `get_image_description` is stored. -/
def c3Page : PageContent := ⟨1, "hello", none, some (getImageDescription (Except.error "boom"))⟩

/-- C3 is false as stated: after a failed description call the page text
does not pass through unmodified — the sentinel error string is truthy
and is appended as a description block. -/
theorem c3_counterexample : enrichedText c3Page ≠ c3Page.text := by decide

/-- C3 (amended): a failure of the description call is caught (never
fatal) and logged, but `get_image_description` returns the non-empty
sentinel string `"Error generating image description."`; since the
sentinel is truthy, the pipeline appends a description block containing
it to the page text, so the unit text is modified, not passed through. -/
theorem c3_enrichment_failure_amended (e : String) (p : PageContent) :
    getImageDescription (Except.error e) = "Error generating image description." ∧
    (p.image_description = some (getImageDescription (Except.error e)) →
      enrichedText p = p.text ++ "\n\n[Image Description for Page " ++
        toString p.page_number ++ "]:\n" ++ "Error generating image description." ∧
      enrichedText p ≠ p.text) := by
  refine ⟨rfl, fun h => ?_⟩
  obtain ⟨pn, t, ip, id⟩ := p
  rw [show getImageDescription (Except.error e) = "Error generating image description."
    from rfl] at h
  subst h
  have henr : enrichedText ⟨pn, t, ip, some "Error generating image description."⟩ =
      t ++ "\n\n[Image Description for Page " ++ toString pn ++ "]:\n" ++
        "Error generating image description." := by
    simp [enrichedText]
  refine ⟨henr, ?_⟩
  rw [henr]
  show t ++ "\n\n[Image Description for Page " ++ toString pn ++ "]:\n" ++
    "Error generating image description." ≠ t
  intro hcon
  have hlen := congrArg String.length hcon
  rw [String.length_append, String.length_append, String.length_append,
    String.length_append] at hlen
  have h1 : ("\n\n[Image Description for Page " : String).length ≠ 0 := by decide
  omega

/-- Witness for the amended C3 at a concrete failing page. -/
theorem c3_enrichment_failure_amended_witness :
    getImageDescription (Except.error "boom") = "Error generating image description." ∧
    (c3Page.image_description = some (getImageDescription (Except.error "boom")) →
      enrichedText c3Page = c3Page.text ++ "\n\n[Image Description for Page " ++
        toString c3Page.page_number ++ "]:\n" ++ "Error generating image description." ∧
      enrichedText c3Page ≠ c3Page.text) :=
  c3_enrichment_failure_amended "boom" c3Page

/-! ## Claim C4 — empty input and empty chunks -/

/-- C4 is false as stated: a first paragraph that alone reaches the
window (here `"a b c"`, 3 words, window 3) closes the still-empty buffer,
emitting a chunk whose content is the empty string even though the source
text is non-empty. -/
theorem c4_counterexample :
    (createChunkWithOverlap gen0 ["a b c"] 1 3 1).map DocChunk.content = ["", "a b c"] ∧
    ("a b c" : String) ≠ "" := by
  refine ⟨by decide, by decide⟩

/-- A one-page input with a non-blank text, for the C4 witness. -/
def c4Page : PageContent := ⟨1, "hello", none, none⟩

/-- C4 (amended): empty inputs yield zero chunks on both paths; in the
pdf path every chunk text is non-empty whenever every page's enriched
text has at least one word; in the paragraph path every chunk content is
non-empty provided all paragraphs are non-empty and the first paragraph
has fewer than `max_words_per_chunk` words — without that last condition
an empty chunk can be emitted (see the counterexample). -/
theorem c4_nonempty_amended :
    (∀ (gen : Nat → String × String) (pn mw ow : Nat),
      createChunkWithOverlap gen [] pn mw ow = []) ∧
    (∀ gen : Nat → String, createOverlappingChunks gen [] = []) ∧
    (∀ (gen : Nat → String) (pages : List PageContent),
      (∀ p ∈ pages, pySplit (enrichedText p) ≠ []) →
      ∀ c ∈ createOverlappingChunks gen pages, c.text ≠ "") ∧
    (∀ (gen : Nat → String × String) (pn mw ow : Nat) (p0 : String) (rest : List String),
      (∀ q ∈ p0 :: rest, q ≠ "") → wc p0 < mw →
      ∀ c ∈ createChunkWithOverlap gen (p0 :: rest) pn mw ow, c.content ≠ "") := by
  refine ⟨fun gen pn mw ow => rfl, fun gen => rfl, ?_, ?_⟩
  · intro gen pages hp c hc
    exact createOverlappingChunksGo_text_ne_empty gen pages 0 hp c hc
  · intro gen pn mw ow p0 rest hall hwc c hc
    have hnot : ¬ mw ≤ wc p0 := by omega
    have hstep : chunkStep gen pn mw ow ⟨[], [], 0⟩ p0 = ⟨[], [p0], wc p0⟩ := by
      simp [chunkStep, hnot]
    unfold createChunkWithOverlap at hc
    rw [List.foldl_cons, hstep] at hc
    refine foldFinish_contents_ne_empty gen pn mw ow rest ⟨[], [p0], wc p0⟩
      (fun d hd => absurd hd (List.not_mem_nil d)) (by simp) ?_
      (fun q hq => hall q (List.mem_cons_of_mem p0 hq)) c hc
    intro q hq
    simp only [List.mem_singleton] at hq
    rw [hq]
    exact hall p0 (List.mem_cons_self p0 rest)

/-- Witness for the amended C4 at concrete inputs. -/
theorem c4_nonempty_amended_witness :
    createChunkWithOverlap gen0 [] 1 3 1 = [] ∧
    createOverlappingChunks pgen0 [] = [] ∧
    ((∀ p ∈ [c4Page], pySplit (enrichedText p) ≠ []) ∧
      ∀ c ∈ createOverlappingChunks pgen0 [c4Page], c.text ≠ "") ∧
    ((∀ q ∈ ["a"], q ≠ "") ∧ wc "a" < 3 ∧
      ∀ c ∈ createChunkWithOverlap gen0 ["a"] 1 3 1, c.content ≠ "") :=
  ⟨c4_nonempty_amended.1 gen0 1 3 1, c4_nonempty_amended.2.1 pgen0,
    ⟨by decide, c4_nonempty_amended.2.2.1 pgen0 [c4Page] (by decide)⟩,
    ⟨by decide, by decide,
      c4_nonempty_amended.2.2.2 gen0 1 3 1 "a" [] (by decide) (by decide)⟩⟩

/-! ## Claim C5 — chunk record schema -/

/-- C5 is false as stated: the chunk dicts emitted by the two chunkers
carry neither a `word_count` nor a `source_file` field (the document path
stores `content`/`page_number`/`uuid`/`created_at`; the pdf path stores
`uuid`/`page_number`/`text`/`start_word`/`end_word`/`image_path`). -/
theorem c5_counterexample :
    (createChunkWithOverlap gen0 ["hello world"] 1 1000 200).length = 1 ∧
    ¬ ("word_count" ∈ DocChunk.keys
        ((createChunkWithOverlap gen0 ["hello world"] 1 1000 200).headD ⟨"", 0, "", ""⟩)) ∧
    ¬ ("source_file" ∈ DocChunk.keys
        ((createChunkWithOverlap gen0 ["hello world"] 1 1000 200).headD ⟨"", 0, "", ""⟩)) ∧
    ¬ ("word_count" ∈ PdfChunk.keys (pageChunk "u" c4Page)) ∧
    ¬ ("source_file" ∈ PdfChunk.keys (pageChunk "u" c4Page)) ∧
    ¬ ("created_at" ∈ PdfChunk.keys (pageChunk "u" c4Page)) ∧
    ¬ ("content" ∈ PdfChunk.keys (pageChunk "u" c4Page)) := by
  refine ⟨by decide, by decide, by decide, by decide, by decide, by decide, by decide⟩

/-- C5 (amended): chunks emitted by `_create_chunk_with_overlap` carry
exactly the four fields `content`, `page_number`, `uuid`, `created_at`;
chunks emitted by `create_overlapping_chunks` carry exactly `uuid`,
`page_number`, `text`, `start_word`, `end_word`, `image_path`; neither
carries `word_count` or `source_file` — those fields are only added by
the uploader's record, whose `word_count` is the number of whitespace
tokens of the uploaded content. -/
theorem c5_schema_amended :
    (∀ (gen : Nat → String × String) (content : List String) (pn mw ow : Nat),
      ∀ c ∈ createChunkWithOverlap gen content pn mw ow,
        DocChunk.keys c = ["content", "page_number", "uuid", "created_at"]) ∧
    (∀ (gen : Nat → String) (pages : List PageContent),
      ∀ c ∈ createOverlappingChunks gen pages,
        PdfChunk.keys c = ["uuid", "page_number", "text", "start_word", "end_word", "image_path"]) ∧
    (∀ content fileName now u : String,
      List.lookup "word_count" (uploadRecord content fileName now u) =
        some (PyVal.pint (pySplit content).length) ∧
      List.lookup "source_file" (uploadRecord content fileName now u) =
        some (PyVal.pstr fileName) ∧
      List.lookup "content" (uploadRecord content fileName now u) =
        some (PyVal.pstr content)) := by
  refine ⟨fun _ _ _ _ _ _ _ => rfl, fun _ _ _ _ => rfl, fun _ _ _ _ => ⟨rfl, rfl, rfl⟩⟩

/-- Witness for the amended C5 at concrete inputs. -/
theorem c5_schema_amended_witness :
    (∀ c ∈ createChunkWithOverlap gen0 ["hello world"] 1 1000 200,
      DocChunk.keys c = ["content", "page_number", "uuid", "created_at"]) ∧
    (∀ c ∈ createOverlappingChunks pgen0 [c4Page],
      PdfChunk.keys c = ["uuid", "page_number", "text", "start_word", "end_word", "image_path"]) ∧
    List.lookup "word_count" (uploadRecord "hello world" "f.txt" "t" "u") =
      some (PyVal.pint (pySplit "hello world").length) :=
  ⟨c5_schema_amended.1 gen0 ["hello world"] 1 1000 200,
    c5_schema_amended.2.1 pgen0 [c4Page],
    (c5_schema_amended.2.2 "hello world" "f.txt" "t" "u").1⟩

/-! ## Claim C6 — the document boundary catches all failures -/

/-- A page that extracts successfully in the C6 counterexample. -/
def c6PageOk : PageContent := ⟨1, "hello", none, none⟩

/-- Environment for the C6 counterexample: a `.pptx` document whose PDF
conversion succeeds, whose first page extracts, and whose second page
extraction raises. -/
def envC6 : ParseEnv :=
  ⟨Except.error "unused", Except.error "unused", ConvOutcome.ok,
    Except.ok [Except.ok c6PageOk, Except.error "page read failure"],
    Except.ok (), pgen0, false, Except.error "unused", gen0⟩

/-- C6 is false as stated: a failure in the middle of PDF page extraction
is caught inside `extract_text_from_pdf`, not at the document boundary,
and the pages collected before the failure still produce a non-empty
chunk list — the failure is not converted into an empty list. -/
theorem c6_counterexample :
    envC6.pdfOpen = Except.ok [Except.ok c6PageOk, Except.error "page read failure"] ∧
    parseDocument ".pptx" envC6 ≠ [] := by
  refine ⟨rfl, by decide⟩

/-- C6 (amended): `parse_document` never raises — any exception reaching
its boundary yields `[]` plus a log — but a failure while extracting PDF
page `k+1` is swallowed inside the extractor, which returns the pages
extracted so far, so the document may produce a partial, non-empty chunk
list rather than an empty one. -/
theorem c6_boundary_amended :
    (∀ (ft : String) (env : ParseEnv) (e : String),
      parseDocumentBody ft env = Except.error e → parseDocument ft env = []) ∧
    (∀ (good : List PageContent) (e : String) (rest : List (Except String PageContent)),
      collectPages (good.map Except.ok ++ Except.error e :: rest) = good) := by
  constructor
  · intro ft env e h
    unfold parseDocument
    rw [h]
  · intro good e rest
    induction good with
    | nil => rfl
    | cons p ps ih => simp [collectPages, ih]

/-- Environment whose every external call fails, for the C6 witness. -/
def envW : ParseEnv :=
  ⟨Except.error "no docx", Except.error "no txt",
    ConvOutcome.failBeforeSave "no conversion",
    Except.error "no pdf", Except.error "no save", pgen0, false,
    Except.error "no gdoc", gen0⟩

/-- Witness for the amended C6 at concrete inputs. -/
theorem c6_boundary_amended_witness :
    parseDocument ".xyz" envW = [] ∧
    collectPages ([c6PageOk].map Except.ok ++ Except.error "boom" :: []) = [c6PageOk] :=
  ⟨c6_boundary_amended.1 ".xyz" envW ("Unsupported file type: " ++ ".xyz") rfl,
    c6_boundary_amended.2 [c6PageOk] "boom" []⟩

/-! ## Claim C7 — unsupported formats -/

/-- C7: for any file type whose lowering is none of `.docx`, `.txt`,
`.pptx`, `.gdoc`, the dispatch raises the distinguished
`"Unsupported file type: ..."` error, which the document boundary catches
and converts into an empty chunk list; the error value is the
unsupported-format message, distinct from the extraction errors supplied
by the environment. -/
theorem c7_unsupported_format (ft : String) (env : ParseEnv)
    (h1 : pyLower ft ≠ ".docx") (h2 : pyLower ft ≠ ".txt")
    (h3 : pyLower ft ≠ ".pptx") (h4 : pyLower ft ≠ ".gdoc") :
    parseDocument ft env = [] ∧
    parseDocumentBody ft env = Except.error ("Unsupported file type: " ++ ft) := by
  have hbody : parseDocumentBody ft env = Except.error ("Unsupported file type: " ++ ft) := by
    simp [parseDocumentBody, h1, h2, h3, h4]
  refine ⟨?_, hbody⟩
  unfold parseDocument
  rw [hbody]

/-- Witness for C7 at the concrete extension `.xyz`. -/
theorem c7_unsupported_format_witness :
    (pyLower ".xyz" ≠ ".docx") ∧ (pyLower ".xyz" ≠ ".txt") ∧
    (pyLower ".xyz" ≠ ".pptx") ∧ (pyLower ".xyz" ≠ ".gdoc") ∧
    (parseDocument ".xyz" envW = [] ∧
      parseDocumentBody ".xyz" envW = Except.error ("Unsupported file type: " ++ ".xyz")) :=
  ⟨by decide, by decide, by decide, by decide,
    c7_unsupported_format ".xyz" envW (by decide) (by decide) (by decide) (by decide)⟩

/-! ## Claim C8 — the overlap seed -/

/-- C8: whenever a chunk is closed (the updated running total reaches the
window), the seed computed by the reverse walk is exactly the maximal
suffix of whole closed paragraphs whose total word count stays within
`overlap_words`: it is a suffix of the closed buffer, its word count is at
most `overlap_words`, and no longer suffix satisfies the bound; the new
buffer is the seed followed by the triggering paragraph, and the next
emitted chunk (which always exists) has content `pyJoin (seed ++ ext)`
for some later paragraphs `ext` — it begins with the seed. -/
theorem c8_overlap_seed (gen : Nat → String × String) (pn mw ow : Nat)
    (s : ChunkState) (p : String) (rest : List String)
    (hclose : mw ≤ s.cnt + wc p) :
    (overlapLoop ow s.buf.reverse [] 0).1 <:+ s.buf ∧
    wsumL (overlapLoop ow s.buf.reverse [] 0).1 ≤ ow ∧
    (∀ t, t <:+ s.buf → wsumL t ≤ ow →
      t.length ≤ (overlapLoop ow s.buf.reverse [] 0).1.length) ∧
    (chunkStep gen pn mw ow s p).buf = (overlapLoop ow s.buf.reverse [] 0).1 ++ [p] ∧
    ∃ c ext,
      (chunkFinish gen pn
        (rest.foldl (chunkStep gen pn mw ow) (chunkStep gen pn mw ow s p)))[s.chunks.length + 1]? =
        some c ∧
      c.content = pyJoin ((overlapLoop ow s.buf.reverse [] 0).1 ++ ext) := by
  obtain ⟨hsfx, hsum, hmax⟩ := overlapSeed_spec ow s.buf
  have hstep : chunkStep gen pn mw ow s p =
      ⟨s.chunks ++ [⟨pyJoin s.buf, pn, (gen s.chunks.length).1, (gen s.chunks.length).2⟩],
        (overlapLoop ow s.buf.reverse [] 0).1 ++ [p], (overlapLoop ow s.buf.reverse [] 0).2⟩ := by
    simp [chunkStep, hclose]
  refine ⟨hsfx, hsum, hmax, by rw [hstep], ?_⟩
  obtain ⟨c, ext, hget, hcontent⟩ :=
    foldFinish_next_chunk gen pn mw ow rest (chunkStep gen pn mw ow s p) (by rw [hstep]; simp)
  have hlen : (chunkStep gen pn mw ow s p).chunks.length = s.chunks.length + 1 := by
    rw [hstep]
    simp
  rw [hlen] at hget
  rw [hstep] at hcontent
  refine ⟨c, p :: ext, hget, ?_⟩
  rw [hcontent, List.append_assoc]
  rfl

/-- Witness for C8 at a concrete closing step. -/
theorem c8_overlap_seed_witness :
    3 ≤ (ChunkState.mk [] ["a b"] 2).cnt + wc "c d" ∧
    ((overlapLoop 200 (ChunkState.mk [] ["a b"] 2).buf.reverse [] 0).1 <:+
        (ChunkState.mk [] ["a b"] 2).buf ∧
      wsumL (overlapLoop 200 (ChunkState.mk [] ["a b"] 2).buf.reverse [] 0).1 ≤ 200 ∧
      (∀ t, t <:+ (ChunkState.mk [] ["a b"] 2).buf → wsumL t ≤ 200 →
        t.length ≤ (overlapLoop 200 (ChunkState.mk [] ["a b"] 2).buf.reverse [] 0).1.length) ∧
      (chunkStep gen0 1 3 200 ⟨[], ["a b"], 2⟩ "c d").buf =
        (overlapLoop 200 (ChunkState.mk [] ["a b"] 2).buf.reverse [] 0).1 ++ ["c d"] ∧
      ∃ c ext,
        (chunkFinish gen0 1
          (List.foldl (chunkStep gen0 1 3 200) (chunkStep gen0 1 3 200 ⟨[], ["a b"], 2⟩ "c d")
            []))[(ChunkState.mk [] ["a b"] 2).chunks.length + 1]? = some c ∧
        c.content = pyJoin ((overlapLoop 200 (ChunkState.mk [] ["a b"] 2).buf.reverse [] 0).1 ++ ext)) :=
  ⟨by decide, c8_overlap_seed gen0 1 3 200 ⟨[], ["a b"], 2⟩ "c d" [] (by decide)⟩

/-! ## Claim C9 — the temporary conversion PDF -/

/-- Environment for the C9 counterexample: conversion succeeds, pages
extract, but `save_chunks` raises while writing the chunk files. -/
def envC9 : ParseEnv :=
  ⟨Except.error "unused", Except.error "unused", ConvOutcome.ok,
    Except.ok [Except.ok c6PageOk], Except.error "disk full", pgen0, false,
    Except.error "unused", gen0⟩

/-- Environment for the conversion-failure-after-`SaveAs` leak: the COM
automation raises while closing PowerPoint, after the temporary PDF was
written. -/
def envC9b : ParseEnv :=
  ⟨Except.error "unused", Except.error "unused",
    ConvOutcome.failAfterSave "Close failed",
    Except.ok [Except.ok c6PageOk], Except.ok (), pgen0, false,
    Except.error "unused", gen0⟩

/-- C9 is false as stated: when `process_pdf` raises after a successful
conversion, the `except` branch of `_convert_and_parse_pptx` returns `[]`
without ever reaching the `unlink` call, so the temporary PDF file is not
removed on that exit path. -/
theorem c9_counterexample :
    envC9.save = Except.error "disk full" ∧
    (convertAndParsePptxT envC9).2 = TempFileState.leaked ∧
    TempFileState.leaked ≠ TempFileState.deleted := by
  refine ⟨rfl, by decide, by decide⟩

/-- C9 (amended): the temporary PDF created by the conversion is removed
only when conversion and downstream parsing both succeed; when
`process_pdf` raises, or the conversion itself raises after `SaveAs` has
already written the file (`Close`/`Quit`/`CoUninitialize`), the `except`
branch returns `[]` without deleting it, so the temporary file outlives
the per-document call on those failure paths; only a conversion failure
before `SaveAs` leaves no file behind. -/
theorem c9_temp_file_amended (env : ParseEnv) :
    (∀ chunks, env.pptxConv = ConvOutcome.ok →
      processPdfE env.pdfGen env.pdfOpen env.save = Except.ok chunks →
      convertAndParsePptxT env = (chunks, TempFileState.deleted)) ∧
    (∀ e, env.pptxConv = ConvOutcome.ok →
      processPdfE env.pdfGen env.pdfOpen env.save = Except.error e →
      convertAndParsePptxT env = ([], TempFileState.leaked)) ∧
    (∀ e, env.pptxConv = ConvOutcome.failAfterSave e →
      convertAndParsePptxT env = ([], TempFileState.leaked)) ∧
    (∀ e, env.pptxConv = ConvOutcome.failBeforeSave e →
      convertAndParsePptxT env = ([], TempFileState.notCreated)) := by
  refine ⟨?_, ?_, ?_, ?_⟩
  · intro chunks hconv hparse
    unfold convertAndParsePptxT
    rw [hconv, hparse]
  · intro e hconv hparse
    unfold convertAndParsePptxT
    rw [hconv, hparse]
  · intro e hconv
    unfold convertAndParsePptxT
    rw [hconv]
  · intro e hconv
    unfold convertAndParsePptxT
    rw [hconv]

/-- Witness for the amended C9: a concrete failing save leaks the file,
and a concrete conversion failure after `SaveAs` leaks it too. -/
theorem c9_temp_file_amended_witness :
    envC9.pptxConv = ConvOutcome.ok ∧
    processPdfE envC9.pdfGen envC9.pdfOpen envC9.save = Except.error "disk full" ∧
    convertAndParsePptxT envC9 = ([], TempFileState.leaked) ∧
    envC9b.pptxConv = ConvOutcome.failAfterSave "Close failed" ∧
    convertAndParsePptxT envC9b = ([], TempFileState.leaked) :=
  ⟨rfl, rfl, (c9_temp_file_amended envC9).2.1 "disk full" rfl rfl, rfl,
    (c9_temp_file_amended envC9b).2.2.1 "Close failed" rfl⟩

/-! ## Claim C10 — chunks are contiguous, ordered, gap-free runs -/

/-- C10: every chunk emitted by the paragraph chunker is the single-space
join of a contiguous run of the input paragraphs, the runs appear in
source order, and each run starts at or before the position just after
the previous run ends, so no paragraph between consecutive chunks is
skipped. -/
theorem c10_contiguous_runs (gen : Nat → String × String) (content : List String)
    (pn mw ow : Nat) :
    ∃ runs : List (Nat × Nat),
      List.Forall₂ (RunP content) (createChunkWithOverlap gen content pn mw ow) runs ∧
      List.Chain' RunChain runs := by
  have h := chunker_runs_aux gen pn mw ow content content ⟨[], [], 0⟩ 0 0 []
    (by simp) (le_refl 0) (Nat.zero_le _) (pslice_self content 0).symm List.Forall₂.nil
    List.chain'_nil (fun la hla => by simp at hla)
  exact h

/-- Witness for C10 at a concrete input. -/
theorem c10_contiguous_runs_witness :
    ∃ runs : List (Nat × Nat),
      List.Forall₂ (RunP ["a b", "c d"]) (createChunkWithOverlap gen0 ["a b", "c d"] 1 3 200) runs ∧
      List.Chain' RunChain runs :=
  c10_contiguous_runs gen0 ["a b", "c d"] 1 3 200
